import Mathlib

/-!
Shallow embedding of the volatility-conditioned equity allocation pipeline
(`project.py`).

Columns of the pandas data frame are modelled as functions `ℕ → Option ℚ`
(`none` models a NaN entry) or `ℕ → ℚ` for columns that never hold NaN.
Rational numbers stand for the float values; the z-score and the
annualisation exponent need square roots and real powers, so those columns
live in `ℝ`.

The external indicator library (talib) is outside the repository, so the
`MA10`, `MA30` and `RSI` columns are parameters of every definition that
reads them: only their definedness and pointwise values matter to the
pipeline code being verified.
-/

namespace VolAlloc

/-- Pandas semantics of `series > series`: a comparison in which either
operand is NaN is `False`. -/
def optGt (x y : Option ℚ) : Bool :=
  match x, y with
  | some a, some b => decide (b < a)
  | _, _ => false

/-- Pandas semantics of `series < series`: a comparison in which either
operand is NaN is `False`. -/
def optLt (x y : Option ℚ) : Bool :=
  match x, y with
  | some a, some b => decide (a < b)
  | _, _ => false

/-- Pandas multiplication of two columns: NaN propagates. -/
def optMul (x y : Option ℚ) : Option ℚ :=
  match x, y with
  | some a, some b => some (a * b)
  | _, _ => none

/-! ### Series Aligner (lines 19-22 of project.py) -/

/-- Inner merge on the date key, as `pd.merge(..., on="Date", how="inner")`
behaves: one output row for every (left row, right row) pair sharing a
date. Dates are modelled as naturals. -/
def innerMerge (sp vix : List (ℕ × ℚ)) : List (ℕ × ℚ × ℚ) :=
  sp.flatMap (fun a =>
    vix.filterMap (fun b => if b.1 = a.1 then some (a.1, a.2, b.2) else none))

/-- Insert a row into a date-sorted list, after existing rows of the same
date (stable). -/
def insertByDate (a : ℕ × ℚ × ℚ) : List (ℕ × ℚ × ℚ) → List (ℕ × ℚ × ℚ)
  | [] => [a]
  | b :: l => if b.1 ≤ a.1 then b :: insertByDate a l else a :: b :: l

/-- Stable sort by date, modelling `df.sort_values("Date")`. -/
def sortByDate (l : List (ℕ × ℚ × ℚ)) : List (ℕ × ℚ × ℚ) :=
  l.foldl (fun acc a => insertByDate a acc) []

/-- The aligned series: inner merge then chronological sort
(`reset_index(drop=True)` is the identity on this list model). -/
def alignSeries (sp vix : List (ℕ × ℚ)) : List (ℕ × ℚ × ℚ) :=
  sortByDate (innerMerge sp vix)

/-! ### Signal Generator (lines 46-50) -/

/-- Line 46-50: `Signal_Price = ((MA10 > MA30) & (RSI > 30) & (RSI < 70)).astype(int)`.
Comparisons with NaN are `False` and `astype(int)` turns the boolean column
into 0/1, so this column never holds NaN. -/
def Signal_Price (ma10 ma30 rsi : ℕ → Option ℚ) (t : ℕ) : ℚ :=
  if optGt (ma10 t) (ma30 t) && optGt (rsi t) (some 30) && optLt (rsi t) (some 70)
  then 1 else 0

/-! ### Volatility Regime Classifier (lines 59-79) -/

/-- Rolling mean over a window of `w` observations ending at `t`
(`rolling(w).mean()`): NaN during the first `w - 1` rows. -/
def rollMean (v : ℕ → ℚ) (w t : ℕ) : Option ℚ :=
  if t + 1 < w then none
  else some ((∑ i in Finset.range w, v (t - i)) / (w : ℚ))

/-- Rolling sample variance (ddof = 1, the square of `rolling(w).std()`)
over a window of `w` observations ending at `t`: NaN during the first
`w - 1` rows. Only used with `w = 60`. -/
def rollVar (v : ℕ → ℚ) (w t : ℕ) : Option ℚ :=
  if t + 1 < w then none
  else some ((∑ i in Finset.range w,
      (v (t - i) - (∑ j in Finset.range w, v (t - j)) / (w : ℚ)) ^ 2) / ((w : ℚ) - 1))

/-- Line 59: `VIX_Mean = Close_y.rolling(60).mean()`. -/
def VIX_Mean (closeY : ℕ → ℚ) (t : ℕ) : Option ℚ :=
  rollMean closeY 60 t

/-- Line 60: `VIX_Std = Close_y.rolling(60).std()`. -/
noncomputable def VIX_Std (closeY : ℕ → ℚ) (t : ℕ) : Option ℝ :=
  (rollVar closeY 60 t).map (fun s2 => Real.sqrt (s2 : ℝ))

/-- Line 61: `VIX_z = (Close_y - VIX_Mean) / VIX_Std`. A zero standard
deviation forces every window value to equal the mean, so the numerator is
0 as well and the float division is 0/0 = NaN: hence `none` when the
variance is 0. -/
noncomputable def VIX_z (closeY : ℕ → ℚ) (t : ℕ) : Option ℝ :=
  match rollMean closeY 60 t, rollVar closeY 60 t with
  | some m, some s2 =>
      if s2 = 0 then none
      else some (((closeY t - m : ℚ) : ℝ) / Real.sqrt (s2 : ℝ))
  | _, _ => none

/-- Lines 72-79: `np.select` over the three regime conditions with values
1.0, 0.5, 0.0. Conditions are evaluated in order and a NaN z-score
satisfies none of them, so `np.select` falls through to its default 0.0 —
the output column is numeric everywhere. -/
noncomputable def volRegime (z : Option ℝ) : ℚ :=
  match z with
  | none => 0
  | some x =>
      if x < 0 then 1
      else if 0 ≤ x ∧ x < 1 then 1 / 2
      else if 1 ≤ x then 0
      else 0

/-- The `Vol_Regime` column. -/
noncomputable def Vol_Regime (closeY : ℕ → ℚ) (t : ℕ) : ℚ :=
  volRegime (VIX_z closeY t)

/-! ### Portfolio Composer (lines 87-107) -/

/-- Line 87: `Final_Price = Signal_Price`. -/
def Final_Price (ma10 ma30 rsi : ℕ → Option ℚ) (t : ℕ) : ℚ :=
  Signal_Price ma10 ma30 rsi t

/-- Line 90: `Final_Price_VIX = Signal_Price * Vol_Regime`. -/
noncomputable def Final_Price_VIX (closeY : ℕ → ℚ) (ma10 ma30 rsi : ℕ → Option ℚ)
    (t : ℕ) : ℚ :=
  Signal_Price ma10 ma30 rsi t * Vol_Regime closeY t

/-- Line 98: `Market_Return = Close_x.pct_change()`, NaN at row 0. -/
def Market_Return (closeX : ℕ → ℚ) (t : ℕ) : Option ℚ :=
  if t = 0 then none
  else some ((closeX t - closeX (t - 1)) / closeX (t - 1))

/-- `column.shift(1)`: NaN at row 0, else the previous row's value. -/
def shift1 (pos : ℕ → ℚ) (t : ℕ) : Option ℚ :=
  if t = 0 then none else some (pos (t - 1))

/-- The lagged-return pattern of lines 103-104:
`ret = position.shift(1) * market_return`. -/
def retOf (pos : ℕ → ℚ) (mr : ℕ → Option ℚ) (t : ℕ) : Option ℚ :=
  optMul (shift1 pos t) (mr t)

/-- Line 103: `Ret_Price = Final_Price.shift(1) * Market_Return`. -/
def Ret_Price (closeX : ℕ → ℚ) (ma10 ma30 rsi : ℕ → Option ℚ) (t : ℕ) : Option ℚ :=
  retOf (Final_Price ma10 ma30 rsi) (Market_Return closeX) t

/-- Line 104: `Ret_Price_VIX = Final_Price_VIX.shift(1) * Market_Return`. -/
noncomputable def Ret_Price_VIX (closeX closeY : ℕ → ℚ)
    (ma10 ma30 rsi : ℕ → Option ℚ) (t : ℕ) : Option ℚ :=
  retOf (Final_Price_VIX closeY ma10 ma30 rsi) (Market_Return closeX) t

/-- Line 107: `df.dropna()` keeps row `t` iff every column is non-NaN
there. `Date`, `Close_x`, `Close_y`, `Signal_Price`, `Vol_Regime`,
`Final_Price` and `Final_Price_VIX` are total, and `VIX_Std` is defined
exactly where `rollVar` is, so the condition reduces to definedness of the
listed columns. -/
noncomputable def rowKept (closeX closeY : ℕ → ℚ) (ma10 ma30 rsi : ℕ → Option ℚ)
    (t : ℕ) : Prop :=
  (ma10 t).isSome ∧ (ma30 t).isSome ∧ (rsi t).isSome ∧
  (VIX_Mean closeY t).isSome ∧ (rollVar closeY 60 t).isSome ∧
  (VIX_z closeY t).isSome ∧ (Market_Return closeX t).isSome ∧
  (Ret_Price closeX ma10 ma30 rsi t).isSome ∧
  (Ret_Price_VIX closeX closeY ma10 ma30 rsi t).isSome

/-! ### Performance Evaluator (lines 114-137) -/

/-- Running product accumulator for `cumprod`. -/
def cumProdAux (a : ℚ) : List ℚ → List ℚ
  | [] => []
  | x :: xs => (a * x) :: cumProdAux (a * x) xs

/-- Line 130: `cumulative = (1 + returns).cumprod()`. -/
def cumulative (rs : List ℚ) : List ℚ :=
  cumProdAux 1 (rs.map (fun r => 1 + r))

/-- Line 131: `total_return = cumulative.iloc[-1] - 1`; `iloc[-1]` raises
on an empty series, modelled by `none`. -/
def totalReturn (rs : List ℚ) : Option ℚ :=
  (cumulative rs).getLast?.map (fun c => c - 1)

/-- Line 132: `annualized_return = cumulative.iloc[-1] ** (periods_per_year / len(returns)) - 1`. -/
noncomputable def annualizedReturn (rs : List ℚ) (p : ℕ) : Option ℝ :=
  (cumulative rs).getLast?.map
    (fun (c : ℚ) => Real.rpow ((c : ℝ)) ((p : ℝ) / (rs.length : ℝ)) - 1)

/-- Sample variance of the return series (the square of `returns.std()`,
ddof = 1): pandas yields NaN on fewer than two observations. -/
def sampleVar (rs : List ℚ) : Option ℚ :=
  if rs.length < 2 then none
  else some ((rs.map (fun x => (x - rs.sum / (rs.length : ℚ)) ^ 2)).sum
      / ((rs.length : ℚ) - 1))

/-- Line 133: `annualized_vol = returns.std() * np.sqrt(periods_per_year)`. -/
noncomputable def annualizedVol (rs : List ℚ) (p : ℕ) : Option ℝ :=
  (sampleVar rs).map (fun (v : ℚ) => Real.sqrt ((v : ℝ)) * Real.sqrt (p : ℝ))

/-- Line 134: `sharpe = annualized_return / annualized_vol if annualized_vol != 0 else np.nan`.
A NaN in either operand also yields NaN. -/
noncomputable def sharpe (rs : List ℚ) (p : ℕ) : Option ℝ :=
  match annualizedVol rs p, annualizedReturn rs p with
  | some v, some r => if v = 0 then none else some (r / v)
  | _, _ => none

/-- Running maximum accumulator for `cummax`. -/
def cummaxAux (m : ℚ) : List ℚ → List ℚ
  | [] => []
  | x :: xs => max m x :: cummaxAux (max m x) xs

/-- `series.cummax()`. -/
def cummax : List ℚ → List ℚ
  | [] => []
  | x :: xs => x :: cummaxAux x xs

/-- One entry of line 135's `cumulative / cumulative.cummax() - 1`. The
running max `m` is attained by some cumulative entry, and a zero cumulative
entry zeroes every later entry, so `m = 0` forces the current entry `c` to
be 0 as well: the float code then computes 0.0/0.0 = NaN, modelled by
`none` (a division of a nonzero `c` by a zero running max cannot occur). -/
def ddEntry (c m : ℚ) : Option ℚ :=
  if m = 0 then none else some (c / m - 1)

/-- Line 135: `drawdown = cumulative / cumulative.cummax() - 1`. -/
def drawdown (rs : List ℚ) : List (Option ℚ) :=
  List.zipWith ddEntry (cumulative rs) (cummax (cumulative rs))

/-- `series.min()` over the numeric entries: NaN on an empty series. -/
def listMin : List ℚ → Option ℚ
  | [] => none
  | x :: xs => some (xs.foldl min x)

/-- Line 136: `max_dd = drawdown.min()`; a pandas min skips NaN entries
and is itself NaN when no numeric entry remains. -/
def maxDrawdown (rs : List ℚ) : Option ℚ :=
  listMin ((drawdown rs).filterMap id)

/-- Lines 114-137: the 4-tuple returned by `performance_metrics`. -/
noncomputable def performance_metrics (rs : List ℚ) (p : ℕ) :
    Option ℚ × Option ℝ × Option ℝ × Option ℚ :=
  (totalReturn rs, annualizedReturn rs p, sharpe rs p, maxDrawdown rs)

/-! ### Small facts about the option-valued operations -/

lemma optGt_none_left (y : Option ℚ) : optGt none y = false := by
  cases y <;> rfl

lemma optGt_none_right (x : Option ℚ) : optGt x none = false := by
  cases x <;> rfl

lemma optLt_none_left (y : Option ℚ) : optLt none y = false := by
  cases y <;> rfl

/-- Claim C1: every strategy return at row t is the previous row's position
times row t's market return, and a strategy return at row t is unchanged by
any mutation of the position (signal or exposure) at row t itself — only
the value at row t-1 can influence it. -/
theorem c1_return_lags_position (closeX closeY : ℕ → ℚ)
    (ma10 ma30 rsi : ℕ → Option ℚ) (pos pos' : ℕ → ℚ) (t : ℕ)
    (ht : t ≠ 0) (hprev : pos (t - 1) = pos' (t - 1)) :
    Ret_Price closeX ma10 ma30 rsi t
        = some (Final_Price ma10 ma30 rsi (t - 1)
            * ((closeX t - closeX (t - 1)) / closeX (t - 1))) ∧
    Ret_Price_VIX closeX closeY ma10 ma30 rsi t
        = some (Final_Price_VIX closeY ma10 ma30 rsi (t - 1)
            * ((closeX t - closeX (t - 1)) / closeX (t - 1))) ∧
    retOf pos (Market_Return closeX) t = retOf pos' (Market_Return closeX) t ∧
    (∀ v : ℚ, retOf (Function.update pos t v) (Market_Return closeX) t
        = retOf pos (Market_Return closeX) t) := by
  have hne : t - 1 ≠ t := by omega
  refine ⟨?_, ?_, ?_, ?_⟩
  · simp [Ret_Price, retOf, shift1, Market_Return, optMul, ht]
  · simp [Ret_Price_VIX, retOf, shift1, Market_Return, optMul, ht]
  · simp [retOf, shift1, Market_Return, optMul, ht, hprev]
  · intro v
    simp [retOf, shift1, Market_Return, optMul, ht, Function.update_noteq hne]

theorem c1_return_lags_position_witness :
    retOf (Function.update (fun _ => (0 : ℚ)) 1 5) (Market_Return fun _ => 1) 1
      = retOf (fun _ => (0 : ℚ)) (Market_Return fun _ => 1) 1 :=
  (c1_return_lags_position (fun _ => 1) (fun _ => 1) (fun _ => none) (fun _ => none)
      (fun _ => none) (fun _ => 0) (fun _ => 0) 1 (by decide) rfl).2.2.2 5

/-- Claim C2: where the two moving averages and the RSI are all defined,
the signal is 1 exactly when MA10 is strictly above MA30 and the RSI is
strictly between 30 and 70; it is 0 or 1 and boundary values give 0. -/
theorem c2_signal_rule (ma10 ma30 rsi : ℕ → Option ℚ) (t : ℕ) (a b c : ℚ)
    (ha : ma10 t = some a) (hb : ma30 t = some b) (hc : rsi t = some c) :
    (Signal_Price ma10 ma30 rsi t = 1 ↔ b < a ∧ 30 < c ∧ c < 70) ∧
    (Signal_Price ma10 ma30 rsi t = 1 ∨ Signal_Price ma10 ma30 rsi t = 0) ∧
    (a = b ∨ c = 30 ∨ c = 70 → Signal_Price ma10 ma30 rsi t = 0) := by
  simp only [Signal_Price, optGt, optLt, ha, hb, hc, Bool.and_eq_true, decide_eq_true_eq]
  split_ifs with h
  · refine ⟨⟨fun _ => ⟨h.1.1, h.1.2, h.2⟩, fun _ => rfl⟩, Or.inl rfl, ?_⟩
    rintro (rfl | rfl | rfl)
    · exact absurd h.1.1 (lt_irrefl _)
    · exact absurd h.1.2 (lt_irrefl _)
    · exact absurd h.2 (lt_irrefl _)
  · refine ⟨⟨fun h1 => absurd h1 (by norm_num), fun hcj => absurd ⟨⟨hcj.1, hcj.2.1⟩, hcj.2.2⟩ h⟩,
      Or.inr rfl, fun _ => rfl⟩

theorem c2_signal_rule_witness :
    Signal_Price (fun _ => some 5) (fun _ => some 4) (fun _ => some 50) 0 = 1 :=
  ((c2_signal_rule (fun _ => some 5) (fun _ => some 4) (fun _ => some 50)
      0 5 4 50 rfl rfl rfl).1).mpr (by norm_num)

/-- Claim C3: for every defined z-score the exposure multiplier falls in
exactly one of the three bins, z below 0 giving 1.0, z in [0, 1) giving
0.5 and z at least 1 giving 0.0; z equal to 0 lands in the middle bin. -/
theorem c3_exposure_bins (z : ℝ) :
    ((z < 0 ∧ volRegime (some z) = 1) ∨
     (0 ≤ z ∧ z < 1 ∧ volRegime (some z) = 1 / 2) ∨
     (1 ≤ z ∧ volRegime (some z) = 0)) ∧
    volRegime (some (0 : ℝ)) = 1 / 2 := by
  have h0 : volRegime (some (0 : ℝ)) = 1 / 2 := by
    simp only [volRegime]
    rw [if_neg (lt_irrefl 0), if_pos ⟨le_refl (0 : ℝ), by norm_num⟩]
  refine ⟨?_, h0⟩
  rcases lt_or_le z 0 with h | h
  · exact Or.inl ⟨h, by simp only [volRegime]; rw [if_pos h]⟩
  · rcases lt_or_le z 1 with h1 | h1
    · refine Or.inr (Or.inl ⟨h, h1, ?_⟩)
      simp only [volRegime]
      rw [if_neg (not_lt.mpr h), if_pos ⟨h, h1⟩]
    · refine Or.inr (Or.inr ⟨h1, ?_⟩)
      simp only [volRegime]
      rw [if_neg (not_lt.mpr h), if_neg (fun hc => absurd hc.2 (not_lt.mpr h1)),
        if_pos h1]

lemma volRegime_cases (z : Option ℝ) :
    volRegime z = 0 ∨ volRegime z = 1 / 2 ∨ volRegime z = 1 := by
  cases z with
  | none => exact Or.inl rfl
  | some x =>
      simp only [volRegime]
      split_ifs
      · exact Or.inr (Or.inr rfl)
      · exact Or.inr (Or.inl rfl)
      · exact Or.inl rfl
      · exact Or.inl rfl

/-- Claim C10: the volatility-filtered position is the price-only position
scaled by the regime factor, the factor lies in {0, 1/2, 1}, and hence the
magnitude of the filtered strategy return never exceeds that of the
price-only strategy return. -/
theorem c10_filtered_return_dominated (closeX closeY : ℕ → ℚ)
    (ma10 ma30 rsi : ℕ → Option ℚ) (t : ℕ) (ht : t ≠ 0) :
    Final_Price_VIX closeY ma10 ma30 rsi t
        = Final_Price ma10 ma30 rsi t * Vol_Regime closeY t ∧
    (Vol_Regime closeY t = 0 ∨ Vol_Regime closeY t = 1 / 2 ∨
      Vol_Regime closeY t = 1) ∧
    ∃ a b : ℚ, Ret_Price closeX ma10 ma30 rsi t = some a ∧
      Ret_Price_VIX closeX closeY ma10 ma30 rsi t = some b ∧ |b| ≤ |a| := by
  refine ⟨rfl, volRegime_cases _, ?_⟩
  refine ⟨Final_Price ma10 ma30 rsi (t - 1)
      * ((closeX t - closeX (t - 1)) / closeX (t - 1)),
    Final_Price_VIX closeY ma10 ma30 rsi (t - 1)
      * ((closeX t - closeX (t - 1)) / closeX (t - 1)), ?_, ?_, ?_⟩
  · simp [Ret_Price, retOf, shift1, Market_Return, optMul, ht]
  · simp [Ret_Price_VIX, retOf, shift1, Market_Return, optMul, ht]
  · unfold Final_Price_VIX Final_Price Vol_Regime
    set s := Signal_Price ma10 ma30 rsi (t - 1) with hs
    set m := (closeX t - closeX (t - 1)) / closeX (t - 1) with hm
    rcases volRegime_cases (VIX_z closeY (t - 1)) with h | h | h <;> rw [h]
    · simp only [mul_zero, zero_mul, abs_zero]
      exact abs_nonneg (s * m)
    · have he : s * (1 / 2) * m = 1 / 2 * (s * m) := by ring
      rw [he, abs_mul, show |(1 / 2 : ℚ)| = 1 / 2 from by norm_num]
      linarith [abs_nonneg (s * m)]
    · rw [mul_one]

theorem c10_filtered_return_dominated_witness :
    Final_Price_VIX (fun _ => 20) (fun _ => none) (fun _ => none) (fun _ => none) 1
      = Final_Price (fun _ => none) (fun _ => none) (fun _ => none) 1
        * Vol_Regime (fun _ => 20) 1 :=
  (c10_filtered_return_dominated (fun _ => 1) (fun _ => 20) (fun _ => none)
      (fun _ => none) (fun _ => none) 1 (by decide)).1

/-! ### Running-product lemmas for the Performance Evaluator -/

lemma cumProdAux_getD (xs : List ℚ) : ∀ (a : ℚ) (i : ℕ), i < xs.length →
    (cumProdAux a xs).getD i 0 = a * (xs.take (i + 1)).prod := by
  induction xs with
  | nil => intro a i h; simp at h
  | cons x xs ih =>
      intro a i h
      cases i with
      | zero => simp [cumProdAux]
      | succ i =>
          simp only [cumProdAux, List.getD_cons_succ, List.take_succ_cons,
            List.prod_cons]
          rw [ih (a * x) i (by simpa using h), mul_assoc]

lemma getLast?_cons_ne (a : ℚ) (l : List ℚ) (h : l ≠ []) :
    (a :: l).getLast? = l.getLast? := by
  cases l with
  | nil => exact absurd rfl h
  | cons b m => exact List.getLast?_cons_cons

lemma cumProdAux_getLast? (xs : List ℚ) : ∀ a : ℚ, xs ≠ [] →
    (cumProdAux a xs).getLast? = some (a * xs.prod) := by
  induction xs with
  | nil => intro a h; exact absurd rfl h
  | cons x xs ih =>
      intro a _
      rw [show cumProdAux a (x :: xs) = (a * x) :: cumProdAux (a * x) xs from rfl]
      cases xs with
      | nil => simp [cumProdAux]
      | cons y ys =>
          rw [getLast?_cons_ne _ _
              (by rw [show cumProdAux (a * x) (y :: ys)
                  = ((a * x) * y) :: cumProdAux ((a * x) * y) ys from rfl]
                  exact List.cons_ne_nil _ _),
            ih (a * x) (List.cons_ne_nil _ _)]
          simp [mul_assoc]

lemma cumulative_getLast? (rs : List ℚ) (h : rs ≠ []) :
    (cumulative rs).getLast? = some ((rs.map (fun r => 1 + r)).prod) := by
  rw [cumulative, cumProdAux_getLast? _ _ (by simpa using h), one_mul]

/-- Claim C4: the cumulative curve is the running product of one plus the
returns, total return is its last value minus 1, and for a constant return
series whose length equals periods_per_year the annualized return
coincides with the total return. -/
theorem c4_metrics_running_product (rs : List ℚ) (r : ℚ) (N : ℕ) (hN : 0 < N) :
    (∀ i, i < rs.length →
        (cumulative rs).getD i 0 = ((rs.take (i + 1)).map (fun x => 1 + x)).prod) ∧
    (rs ≠ [] → totalReturn rs = some ((rs.map (fun x => 1 + x)).prod - 1)) ∧
    totalReturn (List.replicate N r) = some ((1 + r) ^ N - 1) ∧
    annualizedReturn (List.replicate N r) N
      = (totalReturn (List.replicate N r)).map (fun (q : ℚ) => ((q : ℝ))) := by
  have hrep : (List.replicate N r : List ℚ) ≠ [] := by
    simp
    omega
  have htot : ∀ l : List ℚ, l ≠ [] →
      totalReturn l = some ((l.map (fun x => 1 + x)).prod - 1) := by
    intro l hl
    rw [totalReturn, cumulative_getLast? l hl, Option.map_some']
  have hprod : ((List.replicate N r).map (fun x => 1 + x)).prod = (1 + r) ^ N := by
    rw [List.map_replicate, List.prod_replicate]
  refine ⟨?_, htot rs, ?_, ?_⟩
  · intro i h
    rw [cumulative, cumProdAux_getD _ _ _ (by simpa using h), one_mul,
      List.map_take]
  · rw [htot _ hrep, hprod]
  · rw [annualizedReturn, cumulative_getLast? _ hrep, hprod, htot _ hrep, hprod]
    have hN0 : N ≠ 0 := by omega
    have hlen : ((List.replicate N r).length : ℝ) = (N : ℝ) := by
      simp
    rw [Option.map_some', Option.map_some', hlen,
      div_self (by exact_mod_cast hN0 : (N : ℝ) ≠ 0),
      show Real.rpow ((((1 + r) ^ N : ℚ) : ℝ)) 1 = (((1 + r) ^ N : ℚ) : ℝ) from
        Real.rpow_one _]
    push_cast
    ring_nf

theorem c4_metrics_running_product_witness :
    totalReturn (List.replicate 3 (1 : ℚ)) = some ((1 + 1) ^ 3 - 1) :=
  (c4_metrics_running_product [] 1 3 (by decide)).2.2.1

/-! ### Drawdown lemmas -/

lemma foldl_min_le (xs : List ℚ) : ∀ a : ℚ, xs.foldl min a ≤ a := by
  induction xs with
  | nil => intro a; exact le_refl a
  | cons x xs ih => intro a; exact le_trans (ih (min a x)) (min_le_left a x)

lemma foldl_min_eq (xs : List ℚ) : ∀ a : ℚ, (∀ x ∈ xs, a ≤ x) → xs.foldl min a = a := by
  induction xs with
  | nil => intro a _; rfl
  | cons x xs ih =>
      intro a h
      rw [List.foldl_cons, min_eq_left (h x (by simp))]
      exact ih a (fun y hy => h y (by simp [hy]))

lemma cumProdAux_ne_zero (xs : List ℚ) : ∀ a : ℚ, a ≠ 0 → (∀ x ∈ xs, x ≠ 0) →
    ∀ y ∈ cumProdAux a xs, y ≠ 0 := by
  induction xs with
  | nil => intro a _ _ y hy; simp [cumProdAux] at hy
  | cons x xs ih =>
      intro a ha hx y hy
      have hax : a * x ≠ 0 := mul_ne_zero ha (hx x (by simp))
      rcases (by simpa [cumProdAux] using hy : y = a * x ∨ y ∈ cumProdAux (a * x) xs)
        with rfl | hy'
      · exact hax
      · exact ih (a * x) hax (fun z hz => hx z (by simp [hz])) y hy'

lemma cumulative_ne_zero (rs : List ℚ) (h : ∀ r ∈ rs, 1 + r ≠ 0) :
    ∀ y ∈ cumulative rs, y ≠ 0 := by
  refine cumProdAux_ne_zero _ 1 one_ne_zero ?_
  intro x hx
  obtain ⟨r, hr, rfl⟩ := List.mem_map.mp hx
  exact h r hr

lemma cumulative_length (rs : List ℚ) : (cumulative rs).length = rs.length := by
  rw [cumulative]
  have : ∀ (xs : List ℚ) (a : ℚ), (cumProdAux a xs).length = xs.length := by
    intro xs
    induction xs with
    | nil => intro a; rfl
    | cons x xs ih => intro a; simp [cumProdAux, ih]
  rw [this, List.length_map]

lemma cummaxAux_of_chain (xs : List ℚ) : ∀ m : ℚ, List.Chain (· ≤ ·) m xs →
    cummaxAux m xs = xs := by
  induction xs with
  | nil => intro m _; rfl
  | cons x xs ih =>
      intro m h
      obtain ⟨h1, h2⟩ := List.chain_cons.mp h
      simp [cummaxAux, max_eq_right h1, ih x h2]

lemma ddEntry_self (c : ℚ) (hc : c ≠ 0) : ddEntry c c = some 0 := by
  rw [ddEntry, if_neg hc, div_self hc, sub_self]

lemma zipWith_dd_self (cs : List ℚ) (h : ∀ x ∈ cs, x ≠ 0) :
    ∀ d ∈ List.zipWith ddEntry cs cs, d = some 0 := by
  induction cs with
  | nil => intro d hd; simp at hd
  | cons x cs ih =>
      intro d hd
      rcases (by simpa using hd : d = ddEntry x x ∨
          d ∈ List.zipWith ddEntry cs cs) with rfl | hd'
      · exact ddEntry_self x (h x (by simp))
      · exact ih (fun z hz => h z (by simp [hz])) d hd'

/-- Claim C5 counterexample: the return series [-1] is finite and
non-empty and its cumulative curve [0] is monotonically non-decreasing,
yet the code's max_drawdown is NaN (the single drawdown entry is 0.0/0.0
and the NaN-skipping min of no numeric entries is NaN), not a non-positive
value and not 0. -/
theorem c5_counterexample :
    maxDrawdown [(-1 : ℚ)] = none ∧
    List.Chain' (· ≤ ·) (cumulative [(-1 : ℚ)]) := by
  have hcum : cumulative [(-1 : ℚ)] = [0] := by
    rw [cumulative]
    simp [cumProdAux]
  constructor
  · rw [maxDrawdown, drawdown, hcum]
    simp [cummax, cummaxAux, ddEntry, listMin]
  · rw [hcum]
    simp

/-- Claim C5 amended: for every finite, non-empty return series containing
no return of exactly -1, the maximum drawdown is the minimum over rows of
the ratio of the cumulative curve to its running maximum minus 1; it is
non-positive, and it is 0 whenever the cumulative curve is monotonically
non-decreasing. (A return of exactly -1 zeroes the cumulative curve and
makes the code's max_drawdown NaN.) -/
theorem c5_max_drawdown (rs : List ℚ) (h0 : rs ≠ []) (h1 : ∀ r ∈ rs, 1 + r ≠ 0) :
    (∃ m, maxDrawdown rs = some m ∧ m ≤ 0) ∧
    (List.Chain' (· ≤ ·) (cumulative rs) → maxDrawdown rs = some 0) := by
  have hnz := cumulative_ne_zero rs h1
  have hne : cumulative rs ≠ [] := by
    intro hc
    apply h0
    have hl := cumulative_length rs
    rw [hc] at hl
    exact List.length_eq_zero.mp hl.symm
  obtain ⟨c0, cs, hc⟩ : ∃ a l, cumulative rs = a :: l := by
    cases hcc : cumulative rs with
    | nil => exact absurd hcc hne
    | cons a l => exact ⟨a, l, rfl⟩
  have hc0 : c0 ≠ 0 := hnz c0 (by rw [hc]; simp)
  have hdd : drawdown rs
      = ddEntry c0 c0 :: List.zipWith ddEntry cs (cummaxAux c0 cs) := by
    rw [drawdown, hc]
    rfl
  have hfm : (drawdown rs).filterMap id
      = 0 :: (List.zipWith ddEntry cs (cummaxAux c0 cs)).filterMap id := by
    rw [hdd, List.filterMap_cons, show id (ddEntry c0 c0) = some (0 : ℚ) from
      by rw [id_eq, ddEntry_self c0 hc0]]
  constructor
  · refine ⟨((List.zipWith ddEntry cs (cummaxAux c0 cs)).filterMap id).foldl min 0,
      ?_, foldl_min_le _ 0⟩
    rw [maxDrawdown, hfm]
    rfl
  · intro hchain
    rw [hc] at hchain
    have hcm : cummaxAux c0 cs = cs := cummaxAux_of_chain cs c0 hchain
    have hsome0 : ∀ d ∈ List.zipWith ddEntry cs cs, d = some 0 :=
      zipWith_dd_self cs (fun x hx => hnz x (by rw [hc]; simp [hx]))
    have hall : ∀ x ∈ (List.zipWith ddEntry cs cs).filterMap id, (0 : ℚ) ≤ x := by
      intro x hx
      obtain ⟨d, hd, hid⟩ := List.mem_filterMap.mp hx
      rw [hsome0 d hd] at hid
      simp only [id_eq, Option.some.injEq] at hid
      exact le_of_eq hid
    rw [maxDrawdown, hfm, hcm]
    simp only [listMin]
    rw [foldl_min_eq _ 0 hall]

theorem c5_max_drawdown_witness :
    ∃ m, maxDrawdown [(1 : ℚ) / 2] = some m ∧ m ≤ 0 :=
  (c5_max_drawdown [(1 : ℚ) / 2] (List.cons_ne_nil _ _)
    (by intro r hr; rw [List.mem_singleton.mp hr]; norm_num)).1

/-! ### Sharpe ratio -/

lemma sharpe_of_vol_zero (rs : List ℚ) (p : ℕ) (hv : annualizedVol rs p = some 0) :
    sharpe rs p = none := by
  unfold sharpe
  rw [hv]
  cases annualizedReturn rs p with
  | none => rfl
  | some ret => simp

lemma sampleVar_replicate (x : ℚ) (N : ℕ) (hN : 2 ≤ N) :
    sampleVar (List.replicate N x) = some 0 := by
  have hlen : (List.replicate N x).length = N := List.length_replicate N x
  have hN0 : ((N : ℚ)) ≠ 0 := by
    have hnz : N ≠ 0 := by omega
    exact_mod_cast hnz
  have hmean : (List.replicate N x).sum / (((List.replicate N x).length : ℚ)) = x := by
    rw [hlen, List.sum_replicate, nsmul_eq_mul, mul_div_cancel_left₀ x hN0]
  rw [sampleVar, if_neg (by rw [hlen]; omega), hmean]
  have hmap : (List.replicate N x).map (fun y => (y - x) ^ 2)
      = List.replicate N ((x - x) ^ 2) := List.map_replicate
  rw [hmap, sub_self, List.sum_replicate]
  simp

lemma annualizedVol_replicate (x : ℚ) (N p : ℕ) (hN : 2 ≤ N) :
    annualizedVol (List.replicate N x) p = some 0 := by
  rw [annualizedVol, sampleVar_replicate x N hN, Option.map_some']
  simp

/-- Claim C6: a zero annualized volatility makes the Sharpe ratio an
explicit missing value rather than a division fault (in particular any
constant return series of length at least 2 does so), and a non-zero
volatility gives annualized return divided by annualized volatility. -/
theorem c6_sharpe_zero_vol (rs : List ℚ) (p : ℕ) (x : ℚ) (N : ℕ) (hN : 2 ≤ N) :
    (annualizedVol rs p = some 0 → sharpe rs p = none) ∧
    (∀ v ret : ℝ, annualizedVol rs p = some v → v ≠ 0 →
        annualizedReturn rs p = some ret → sharpe rs p = some (ret / v)) ∧
    annualizedVol (List.replicate N x) p = some 0 ∧
    sharpe (List.replicate N x) p = none := by
  refine ⟨sharpe_of_vol_zero rs p, ?_, annualizedVol_replicate x N p hN,
    sharpe_of_vol_zero _ p (annualizedVol_replicate x N p hN)⟩
  intro v ret hv hvne hr
  unfold sharpe
  rw [hv, hr]
  simp [hvne]

theorem c6_sharpe_zero_vol_witness :
    annualizedVol (List.replicate 2 (1 : ℚ)) 252 = some 0 :=
  (c6_sharpe_zero_vol [] 252 1 2 (by decide)).2.2.1

/-! ### Undefined z-score rows (claims C7 and C8) -/

lemma rollMean_const (c : ℚ) (w t : ℕ) (h : ¬ t + 1 < w) (hw : w ≠ 0) :
    rollMean (fun _ => c) w t = some c := by
  rw [rollMean, if_neg h]
  congr 1
  rw [Finset.sum_const, Finset.card_range, nsmul_eq_mul,
    mul_div_cancel_left₀ c (by exact_mod_cast hw : ((w : ℚ)) ≠ 0)]

lemma rollVar_const (c : ℚ) (w t : ℕ) (h : ¬ t + 1 < w) (hw : w ≠ 0) :
    rollVar (fun _ => c) w t = some 0 := by
  rw [rollVar, if_neg h]
  congr 1
  have hterm : ∀ i ∈ Finset.range w,
      (c - (∑ j in Finset.range w, c) / ((w : ℚ))) ^ 2 = 0 := by
    intro i _
    rw [Finset.sum_const, Finset.card_range, nsmul_eq_mul,
      mul_div_cancel_left₀ c (by exact_mod_cast hw : ((w : ℚ)) ≠ 0),
      sub_self]
    ring
  rw [Finset.sum_congr rfl hterm, Finset.sum_const, Finset.card_range]
  simp

lemma VIX_z_warmup (closeY : ℕ → ℚ) (t : ℕ) (h : t + 1 < 60) :
    VIX_z closeY t = none := by
  unfold VIX_z
  rw [rollMean, if_pos h]

lemma VIX_z_const (c : ℚ) (t : ℕ) : VIX_z (fun _ => c) t = none := by
  by_cases h : t + 1 < 60
  · exact VIX_z_warmup _ t h
  · unfold VIX_z
    rw [rollMean_const c 60 t h (by decide), rollVar_const c 60 t h (by decide)]
    simp

/-- Claim C7 counterexample: with a constant volatility series the z-score
is undefined both at a warm-up row (row 0) and at the first full-window row
(row 59, where the rolling standard deviation is 0), yet the exposure
column holds the numeric value 0 at both rows — np.select substitutes its
default instead of propagating the missing value. -/
theorem c7_counterexample :
    VIX_z (fun _ => (20 : ℚ)) 0 = none ∧ Vol_Regime (fun _ => (20 : ℚ)) 0 = 0 ∧
    VIX_z (fun _ => (20 : ℚ)) 59 = none ∧ Vol_Regime (fun _ => (20 : ℚ)) 59 = 0 := by
  have h0 := VIX_z_const 20 0
  have h59 := VIX_z_const 20 59
  exact ⟨h0, by rw [Vol_Regime, h0]; rfl, h59, by rw [Vol_Regime, h59]; rfl⟩

/-- Claim C7 amended: where the rolling z-score is undefined the exposure
column holds the numeric value 0 (the np.select default) rather than a
missing value; the row is nevertheless excluded by the trimming step,
because the z-score column itself is undefined there. -/
theorem c7_exposure_on_undefined_z (closeX closeY : ℕ → ℚ)
    (ma10 ma30 rsi : ℕ → Option ℚ) (t : ℕ) (hz : VIX_z closeY t = none) :
    Vol_Regime closeY t = 0 ∧ ¬ rowKept closeX closeY ma10 ma30 rsi t := by
  refine ⟨by rw [Vol_Regime, hz]; rfl, fun hk => ?_⟩
  have hsome := hk.2.2.2.2.2.1
  rw [hz] at hsome
  simp at hsome

theorem c7_exposure_on_undefined_z_witness :
    Vol_Regime (fun _ => (21 : ℚ)) 0 = 0 ∧
      ¬ rowKept (fun _ => 1) (fun _ => (21 : ℚ)) (fun _ => none) (fun _ => none)
        (fun _ => none) 0 :=
  c7_exposure_on_undefined_z (fun _ => 1) (fun _ => (21 : ℚ)) (fun _ => none)
    (fun _ => none) (fun _ => none) 0 (VIX_z_const 21 0)

/-- Claim C8 counterexample: with all three indicator columns undefined at
row 0 the signal column holds the numeric value 0 there, not a missing
value — the pandas comparisons treat NaN as False and astype(int) yields
an integer column with no NaN. -/
theorem c8_counterexample :
    Signal_Price (fun _ => none) (fun _ => none) (fun _ => none) 0 = 0 := rfl

/-- Claim C8 amended: where any of MA10, MA30 or RSI is undefined the
signal column holds the numeric value 0, not a missing value; the row is
nevertheless excluded by the trimming step, because the undefined
indicator column itself is still present in the frame. -/
theorem c8_signal_on_undefined_indicator (closeX closeY : ℕ → ℚ)
    (ma10 ma30 rsi : ℕ → Option ℚ) (t : ℕ)
    (h : ma10 t = none ∨ ma30 t = none ∨ rsi t = none) :
    Signal_Price ma10 ma30 rsi t = 0 ∧ ¬ rowKept closeX closeY ma10 ma30 rsi t := by
  constructor
  · rcases h with h | h | h <;>
      simp [Signal_Price, h, optGt_none_left, optGt_none_right, optLt_none_left]
  · intro hk
    rcases h with h | h | h
    · have hsome := hk.1
      rw [h] at hsome
      simp at hsome
    · have hsome := hk.2.1
      rw [h] at hsome
      simp at hsome
    · have hsome := hk.2.2.1
      rw [h] at hsome
      simp at hsome

theorem c8_signal_on_undefined_indicator_witness :
    Signal_Price (fun _ => none) (fun _ => some 3) (fun _ => some 50) 2 = 0 ∧
      ¬ rowKept (fun _ => 1) (fun _ => 1) (fun _ => none) (fun _ => some 3)
        (fun _ => some 50) 2 :=
  c8_signal_on_undefined_indicator (fun _ => 1) (fun _ => 1) (fun _ => none)
    (fun _ => some 3) (fun _ => some 50) 2 (Or.inl rfl)

/-! ### Series Aligner lemmas (claim C9) -/

lemma insertByDate_perm (a : ℕ × ℚ × ℚ) (l : List (ℕ × ℚ × ℚ)) :
    (insertByDate a l).Perm (a :: l) := by
  induction l with
  | nil => exact List.Perm.refl _
  | cons b l ih =>
      by_cases h : b.1 ≤ a.1
      · rw [insertByDate, if_pos h]
        exact (ih.cons b).trans (List.Perm.swap a b l)
      · rw [insertByDate, if_neg h]

lemma foldl_insertByDate_perm (l : List (ℕ × ℚ × ℚ)) :
    ∀ acc, (l.foldl (fun acc a => insertByDate a acc) acc).Perm (l ++ acc) := by
  induction l with
  | nil => intro acc; exact List.Perm.refl _
  | cons a l ih =>
      intro acc
      rw [List.foldl_cons]
      refine (ih (insertByDate a acc)).trans ?_
      refine (List.Perm.append_left l (insertByDate_perm a acc)).trans ?_
      exact List.perm_middle

lemma sortByDate_perm (l : List (ℕ × ℚ × ℚ)) : (sortByDate l).Perm l := by
  have h := foldl_insertByDate_perm l []
  rw [List.append_nil] at h
  exact h

lemma mem_innerMerge (sp vix : List (ℕ × ℚ)) (d : ℕ) (x y : ℚ) :
    (d, x, y) ∈ innerMerge sp vix ↔ (d, x) ∈ sp ∧ (d, y) ∈ vix := by
  simp only [innerMerge, List.mem_flatMap, List.mem_filterMap]
  constructor
  · rintro ⟨a, ha, b, hb, hif⟩
    by_cases h : b.1 = a.1
    · rw [if_pos h] at hif
      obtain ⟨ha1, ha2, hb2⟩ : a.1 = d ∧ a.2 = x ∧ b.2 = y := by
        simpa using hif
      constructor
      · rw [← ha1, ← ha2]
        exact ha
      · rw [← ha1, ← h, ← hb2]
        exact hb
    · rw [if_neg h] at hif
      exact absurd hif (by simp)
  · rintro ⟨h1, h2⟩
    exact ⟨(d, x), h1, (d, y), h2, by simp⟩

lemma length_filterMap_date (a : ℕ × ℚ) (vix : List (ℕ × ℚ)) :
    (vix.filterMap (fun b => if b.1 = a.1 then some (a.1, a.2, b.2) else none)).length
      = vix.countP (fun b => b.1 == a.1) := by
  induction vix with
  | nil => rfl
  | cons b l ih =>
      by_cases h : b.1 = a.1
      · simp [List.filterMap_cons, List.countP_cons, h, ih]
      · simp [List.filterMap_cons, List.countP_cons, h, ih]

lemma length_innerMerge (sp vix : List (ℕ × ℚ)) :
    (innerMerge sp vix).length
      = (sp.map (fun a => vix.countP (fun b => b.1 == a.1))).sum := by
  rw [innerMerge, List.length_flatMap]
  congr 1
  apply List.map_congr_left
  intro a _
  exact length_filterMap_date a vix

/-- Claim C9 counterexample: a left input with a duplicated date is not
rejected — the aligner emits one row per matching pair and computation
proceeds on that (wrong-length) result, so no error is signaled before
computation. -/
theorem c9_counterexample :
    alignSeries [(1, (10 : ℚ)), (1, 11)] [(1, (20 : ℚ))]
      = [(1, 10, 20), (1, 11, 20)] := rfl

/-- Claim C9 amended: the aligner performs no duplicate-date validation:
it is a total function whose output contains one row for every (left row,
right row) pair sharing a date — duplicated dates simply multiply rows —
and downstream computation proceeds on this result. -/
theorem c9_merge_total_cross_join (sp vix : List (ℕ × ℚ)) :
    (∀ (d : ℕ) (x y : ℚ),
        (d, x, y) ∈ alignSeries sp vix ↔ (d, x) ∈ sp ∧ (d, y) ∈ vix) ∧
    (alignSeries sp vix).length
      = (sp.map (fun a => vix.countP (fun b => b.1 == a.1))).sum := by
  have hperm := sortByDate_perm (innerMerge sp vix)
  constructor
  · intro d x y
    rw [alignSeries, hperm.mem_iff, mem_innerMerge]
  · rw [alignSeries, hperm.length_eq, length_innerMerge]

end VolAlloc
